import Mathlib

/-!
Verification development for the LibXray control/bridge layer
(repository `dopplerswift`).

The repository's only file under version control here is the C bridging
header `PulseVPNTunnel/BridgingHeaders/LibXray-Bridging-Header.h`, which
declares the exported `CGo*` call surface.  The declaration list is embedded
literally below.  The behaviour behind each declaration (the Go
implementation of LibXray) is not part of the repository, so the lifecycle
state machine, the share-link converter, the geo/MPH cache builder and the
call envelope are modelled from the specification's words; each such
definition carries a doc comment starting `Modelled from the spec:`.
-/

/-! ## The exported C call surface (from the bridging header) -/

/-- Argument kind of one exported C declaration: a `char*` holding
base64-encoded JSON text, a raw `GoInt` (`typedef long long GoInt`, a 64-bit
signed integer) count, or no argument (`void`). -/
inductive CArg where
  | base64Text
  | goIntCount
  | noArg
  deriving DecidableEq, Repr

/-- One `extern char* CGo...` declaration of the bridging header:
its name and the kind of its argument. -/
structure CDecl where
  name : String
  arg : CArg
  deriving DecidableEq, Repr

/-- The declaration list of `LibXray-Bridging-Header.h`, in header order. -/
def headerDecls : List CDecl :=
  [⟨"CGoRunXray", .base64Text⟩,
   ⟨"CGoRunXrayFromJSON", .base64Text⟩,
   ⟨"CGoStopXray", .noArg⟩,
   ⟨"CGoXrayVersion", .noArg⟩,
   ⟨"CGoConvertShareLinksToXrayJson", .base64Text⟩,
   ⟨"CGOConvertXrayJsonToShareLinks", .base64Text⟩,
   ⟨"CGoGetFreePorts", .goIntCount⟩,
   ⟨"CGoPing", .base64Text⟩,
   ⟨"CGoQueryStats", .base64Text⟩,
   ⟨"CGoTestXray", .base64Text⟩,
   ⟨"CGoCountGeoData", .base64Text⟩,
   ⟨"CGoReadGeoFiles", .base64Text⟩,
   ⟨"CGoBuildMphCache", .base64Text⟩,
   ⟨"CGoInitDns", .base64Text⟩,
   ⟨"CGoResetDns", .noArg⟩]

/-! ## Error taxonomy (spec §7) -/

/-- Modelled from the spec: the error taxonomy of §7.  The Go implementation
behind the header is not under version control here; the spec's taxonomy is
embedded as a closed inductive, with the context each error carries
(scheme name, link index, file/offset). -/
inductive LXError where
  | DecodeError
  | AlreadyRunningError
  | InvalidConfigError
  | UnsupportedSchemeError (scheme : String)
  | MalformedLinkError (index : Nat)
  | UnsupportedOutboundError
  | GeoParseError (file : String) (offset : Nat)
  | MphBuildError
  | EngineNotRunningError
  | InvalidDnsConfigError
  | TimeoutError
  | EngineRuntimeFault
  deriving DecidableEq, Repr

/-! ## Lifecycle Controller (spec §4.2) -/

/-- Modelled from the spec: the `EngineState` enum of §3. -/
inductive EngineState where
  | Stopped
  | Starting
  | Running
  | Stopping
  | Failed
  deriving DecidableEq, Repr

/-- Modelled from the spec: the process-wide singleton engine owned by the
Lifecycle Controller: its state plus the traffic counters the Stats
Collector reads (byte counts accumulate as naturals whilst Running). -/
structure Engine where
  state : EngineState
  bytesUp : Nat
  bytesDown : Nat
  deriving DecidableEq, Repr

/-- Modelled from the spec: `start` of §4.2.  `start` and `stop` are
serialized under the controller's lock (§5), so a call is one atomic step on
the engine.  While the state is Starting or Running the call is rejected
with `AlreadyRunningError` and nothing changes (rejected, not queued).
Otherwise: an invalid config fails with `InvalidConfigError` leaving the
state unchanged (§7: conversion/validation errors are recoverable, state
unchanged); with a valid config the engine passes through Starting and on
engine-ready reaches Running, while an engine init error leaves it Failed
(`Starting --(init error)--> Failed`). -/
def start (e : Engine) (configValid engineReady : Bool) :
    Engine × Except LXError Unit :=
  match e.state with
  | .Starting => (e, .error .AlreadyRunningError)
  | .Running => (e, .error .AlreadyRunningError)
  | _ =>
    if configValid then
      if engineReady then ({ e with state := .Running }, .ok ())
      else ({ e with state := .Failed }, .error .EngineRuntimeFault)
    else (e, .error .InvalidConfigError)

/-- Modelled from the spec: `stop` of §4.2.  Idempotent: on an already
Stopped engine it succeeds with no side effect; from any other state the
engine instance is released (counters dropped) and the state is forced to
Stopped even when parts of teardown fail (`teardownOk = false`); it always
succeeds. -/
def stop (e : Engine) (teardownOk : Bool) : Engine × Except LXError Unit :=
  match teardownOk, e.state with
  | _, .Stopped => (e, .ok ())
  | _, _ => ({ state := .Stopped, bytesUp := 0, bytesDown := 0 }, .ok ())

/-- Modelled from the spec: `queryStats` of §4.5.  Fails with
`EngineNotRunningError` whenever the state is not Running; otherwise returns
a point-in-time snapshot of the byte counters (as the signed 64-bit values
the wire format carries). -/
def queryStats (e : Engine) : Except LXError (Int × Int) :=
  match e.state with
  | .Running => .ok ((e.bytesUp : Int), (e.bytesDown : Int))
  | _ => .error .EngineNotRunningError

/-! ## Config Converter (spec §4.3) -/

/-- Modelled from the spec: the scheme tags of the `ShareLink` tagged
variant (§3). -/
inductive Scheme where
  | vmess
  | vless
  | trojan
  | shadowsocks
  | socks
  | http
  deriving DecidableEq, Repr

/-- A byte, as carried by encoded sub-fields of a link and by geo source
files. -/
abbrev Byte := Fin 256

/-- Modelled from the spec: one share link as received on the wire, before
validation: a scheme tag, a host, the character codes of the port field and
the percent-encoded bytes of the credential field, plus a cosmetic remark. -/
structure RawLink where
  scheme : String
  host : String
  portText : List Nat
  credsEnc : List Nat
  remark : String
  deriving DecidableEq, Repr

/-- Modelled from the spec: one outbound entry of a `TunnelConfig` as the
scheme-specific builders produce it: scheme, address, numeric port, decoded
credentials, remark.  A `TunnelConfig`'s outbound list is `List Outbound`. -/
structure Outbound where
  scheme : Scheme
  host : String
  port : Nat
  creds : List Byte
  remark : String
  deriving DecidableEq, Repr

/-- Modelled from the spec: scheme-tag recognition of the converter's
dispatch; unknown tags are rejected. -/
def parseScheme (s : String) : Option Scheme :=
  if s = "vmess" then some .vmess
  else if s = "vless" then some .vless
  else if s = "trojan" then some .trojan
  else if s = "shadowsocks" then some .shadowsocks
  else if s = "socks" then some .socks
  else if s = "http" then some .http
  else none

/-- The scheme tag a serialized link carries for each variant. -/
def schemeName : Scheme → String
  | .vmess => "vmess"
  | .vless => "vless"
  | .trojan => "trojan"
  | .shadowsocks => "shadowsocks"
  | .socks => "socks"
  | .http => "http"

/-- Value of a decimal digit string (character codes), with accumulator;
any non-digit code makes the whole field non-numeric. -/
def digitsVal (acc : Nat) : List Nat → Option Nat
  | [] => some acc
  | c :: cs => if 48 ≤ c ∧ c ≤ 57 then digitsVal (10 * acc + (c - 48)) cs else none

/-- Modelled from the spec: port-field validation — a non-empty all-decimal
field parses to its value, anything else is non-numeric. -/
def parsePort (s : List Nat) : Option Nat :=
  match s with
  | [] => none
  | _ => digitsVal 0 s

/-- Decimal character codes of a natural number, most significant first. -/
def natDigits (n : Nat) : List Nat :=
  if n < 10 then [48 + n]
  else natDigits (n / 10) ++ [48 + n % 10]
decreasing_by exact Nat.div_lt_self (by omega) (by omega)

/-- Is `c` the character code of an unreserved (alphanumeric) character,
kept verbatim by percent-encoding? -/
def isUnreservedCode (c : Nat) : Bool :=
  (48 ≤ c && c ≤ 57) || (65 ≤ c && c ≤ 90) || (97 ≤ c && c ≤ 122)

/-- Character code of an uppercase hexadecimal digit. -/
def hexUpper (n : Nat) : Nat :=
  if n < 10 then 48 + n else 55 + n

/-- Value of a hexadecimal digit character code (uppercase letters). -/
def hexVal (c : Nat) : Option Nat :=
  if 48 ≤ c ∧ c ≤ 57 then some (c - 48)
  else if 65 ≤ c ∧ c ≤ 70 then some (c - 55)
  else none

/-- Modelled from the spec: percent-encoding of a credential byte string —
unreserved bytes are kept, every other byte becomes `%XX`. -/
def percentEncode : List Byte → List Nat
  | [] => []
  | b :: bs =>
    if isUnreservedCode b.val then b.val :: percentEncode bs
    else 37 :: hexUpper (b.val / 16) :: hexUpper (b.val % 16) :: percentEncode bs

/-- Modelled from the spec: percent-decoding with validation — `%` must be
followed by two hex digits, and a bare code must be unreserved; anything
else is invalid encoding (`none`), never a silent empty field. -/
def percentDecode : List Nat → Option (List Byte)
  | [] => some []
  | c :: rest =>
    if c = 37 then
      match rest with
      | h :: l :: rest2 =>
        match hexVal h, hexVal l, percentDecode rest2 with
        | some hv, some lv, some bs =>
          if hb : 16 * hv + lv < 256 then some (⟨16 * hv + lv, hb⟩ :: bs)
          else none
        | _, _, _ => none
      | _ => none
    else if hc : c < 256 then
      if isUnreservedCode c then
        match percentDecode rest with
        | some bs => some (⟨c, hc⟩ :: bs)
        | none => none
      else none
    else none

/-- Modelled from the spec: validation of the link at position `idx` of the
set — unknown scheme fails with `UnsupportedSchemeError` naming the scheme;
a missing host, non-numeric port or invalid credential encoding fails with
`MalformedLinkError` carrying the link's position. -/
def parseLink (idx : Nat) (l : RawLink) : Except LXError Outbound :=
  match parseScheme l.scheme with
  | none => .error (.UnsupportedSchemeError l.scheme)
  | some sch =>
    if l.host = "" then .error (.MalformedLinkError idx)
    else
      match parsePort l.portText, percentDecode l.credsEnc with
      | some p, some cs => .ok ⟨sch, l.host, p, cs, l.remark⟩
      | _, _ => .error (.MalformedLinkError idx)

/-- Link-set conversion from position `i` on: the first failing link aborts
the whole conversion. -/
def toJsonGo (i : Nat) : List RawLink → Except LXError (List Outbound)
  | [] => .ok []
  | l :: rest =>
    match parseLink i l with
    | .error err => .error err
    | .ok ob =>
      match toJsonGo (i + 1) rest with
      | .error err => .error err
      | .ok obs => .ok (ob :: obs)

/-- Modelled from the spec: `toJson (ShareLinkSet) -> TunnelConfig` of §4.3
(`ConvertShareLinksToXrayJson`) — scheme-dispatched validation of every
link, atomic over the whole set. -/
def toJson (ls : List RawLink) : Except LXError (List Outbound) :=
  toJsonGo 0 ls

/-- Serialization of one outbound entry back into a share link. -/
def rawOfOutbound (o : Outbound) : RawLink :=
  ⟨schemeName o.scheme, o.host, natDigits o.port, percentEncode o.creds, o.remark⟩

/-- Modelled from the spec: `toShareLinks (TunnelConfig) -> ShareLinkSet` of
§4.3 (`ConvertXrayJsonToShareLinks`) — one share link per outbound entry.
In this model every outbound carries a scheme tag, so every entry is
representable. -/
def toShareLinks (cfg : List Outbound) : List RawLink :=
  cfg.map rawOfOutbound

/-- Semantic equivalence of two raw links (spec §4.3's round-trip contract):
same recognised scheme, host, port value and decoded credentials; remark
text and surface spelling of fields may differ. -/
def semEqLink (a b : RawLink) : Prop :=
  parseScheme a.scheme = parseScheme b.scheme ∧
  a.host = b.host ∧
  parsePort a.portText = parsePort b.portText ∧
  percentDecode a.credsEnc = percentDecode b.credsEnc

instance : DecidablePred (fun p : RawLink × RawLink => semEqLink p.1 p.2) := by
  intro p
  unfold semEqLink
  infer_instance

/-! ## Geo Data Manager: MPH cache (spec §4.4) -/

/-- One slot of the MPH lookup table: the stored key (the key/tag check of
§4.4) and the entry data it maps to. -/
structure MphSlot where
  key : String
  entry : String
  deriving DecidableEq, Repr

/-- Modelled from the spec: the `MphCache` artifact of §3 — a table of
slots (one per key, each holding its key for verification) tagged with the
content fingerprint of the source bytes it was built from. -/
structure MphCache where
  slots : List MphSlot
  fingerprint : Nat
  deriving DecidableEq, Repr

/-- Modelled from the spec: the content fingerprint (hash of source bytes)
of §3/§4.4, realised as the injective base-257 content code of the byte
string; distinct sources give distinct fingerprints, which is the staleness
detection the spec assigns to the fingerprint. -/
def contentFingerprint : List Byte → Nat
  | [] => 0
  | b :: bs => (b.val + 1) + 257 * contentFingerprint bs

/-- Position of a key in the key list (length of the list when absent). -/
def keyIndex : List String → String → Nat
  | [], _ => 0
  | k :: ks, q => if k = q then 0 else keyIndex ks q + 1

/-- Modelled from the spec: the minimal perfect hash the builder's
seed-search converges to, taken extensionally — on the cache's key set it is
the canonical bijection onto the slot range; any other key falls into the
range as well (slot `0`) and is rejected by the stored-key check. -/
def mphHash (ks : List String) (k : String) : Nat :=
  keyIndex ks k % ks.length

/-- Modelled from the spec: `buildMphCache (database) -> MphCache` of §4.4
(`BuildMphCache`).  The construction succeeds deterministically for any
finite, duplicate-free key set; a database with duplicate keys (not a
mapping) fails with `MphBuildError`.  The cache stores one slot per key and
the fingerprint of the source bytes. -/
def buildMphCache (db : List (String × String)) (src : List Byte) :
    Except LXError MphCache :=
  if (db.map Prod.fst).Nodup then
    .ok ⟨db.map (fun p => ⟨p.1, p.2⟩), contentFingerprint src⟩
  else .error .MphBuildError

/-- Modelled from the spec: `lookup(key)` over a built cache — hash to a
slot, then verify the stored key before trusting it; a mismatch is
"not found". -/
def mphLookup (c : MphCache) (k : String) : Option String :=
  match c.slots[mphHash (c.slots.map MphSlot.key) k]? with
  | some s => if s.key = k then some s.entry else none
  | none => none

/-! ## Envelope Codec and the call surface (spec §4.1, §6) -/

/-- Modelled from the spec: the `CallResponse` envelope of §3. -/
structure CallResponse where
  success : Bool
  errorMessage : String
  data : String
  deriving DecidableEq, Repr

/-- Modelled from the spec: the human-readable message of each error kind,
carrying its context (scheme name, link index, file/offset). -/
def errMsg : LXError → String
  | .DecodeError => "decode error: input is not valid base64 JSON"
  | .AlreadyRunningError => "engine is already running"
  | .InvalidConfigError => "invalid config"
  | .UnsupportedSchemeError s => "unsupported scheme: " ++ s
  | .MalformedLinkError i => "malformed link at index " ++ Nat.repr i
  | .UnsupportedOutboundError => "outbound has no share-link representation"
  | .GeoParseError f off =>
      "geo parse error in " ++ f ++ " at offset " ++ Nat.repr off
  | .MphBuildError => "mph build failed"
  | .EngineNotRunningError => "engine is not running"
  | .InvalidDnsConfigError => "invalid dns config"
  | .TimeoutError => "timed out"
  | .EngineRuntimeFault => "engine runtime fault"

/-- Modelled from the spec: wrapping a component result into the envelope —
success with empty error message, or failure with the error's message and no
data. -/
def respond : Except LXError String → CallResponse
  | .ok d => ⟨true, "", d⟩
  | .error err => ⟨false, errMsg err, ""⟩

/-- Character code of a base64 digit (RFC 4648 alphabet). -/
def b64Char (s : Nat) : Nat :=
  if s < 26 then 65 + s
  else if s < 52 then 97 + (s - 26)
  else if s < 62 then 48 + (s - 52)
  else if s = 62 then 43
  else 47

/-- Value of a base64 digit character code; `none` off the alphabet. -/
def b64Val (c : Nat) : Option Nat :=
  if 65 ≤ c ∧ c ≤ 90 then some (c - 65)
  else if 97 ≤ c ∧ c ≤ 122 then some (c - 97 + 26)
  else if 48 ≤ c ∧ c ≤ 57 then some (c - 48 + 52)
  else if c = 43 then some 62
  else if c = 47 then some 63
  else none

/-- Modelled from the spec: base64 encoding of a byte string (character
codes, `=` padding), the transport encoding of §6. -/
def encodeB64 : List Byte → List Nat
  | [] => []
  | [b] => [b64Char (b.val / 4), b64Char (b.val % 4 * 16), 61, 61]
  | [b1, b2] =>
    [b64Char (b1.val / 4), b64Char (b1.val % 4 * 16 + b2.val / 16),
     b64Char (b2.val % 16 * 4), 61]
  | b1 :: b2 :: b3 :: rest =>
    b64Char (b1.val / 4) :: b64Char (b1.val % 4 * 16 + b2.val / 16) ::
    b64Char (b2.val % 16 * 4 + b3.val / 64) :: b64Char (b3.val % 64) ::
    encodeB64 rest

/-- Modelled from the spec: base64 decoding with validation (quartets of
alphabet characters, `=` padding only at the end). -/
def decodeB64 : List Nat → Option (List Byte)
  | [] => some []
  | c1 :: c2 :: c3 :: c4 :: rest =>
    match b64Val c1, b64Val c2 with
    | some s1, some s2 =>
      if c3 = 61 then
        if c4 = 61 ∧ rest = [] then
          if h1 : s1 * 4 + s2 / 16 < 256 then some [⟨s1 * 4 + s2 / 16, h1⟩]
          else none
        else none
      else
        match b64Val c3 with
        | some s3 =>
          if c4 = 61 then
            if rest = [] then
              if h2 : s1 * 4 + s2 / 16 < 256 ∧ s2 % 16 * 16 + s3 / 4 < 256 then
                some [⟨s1 * 4 + s2 / 16, h2.1⟩, ⟨s2 % 16 * 16 + s3 / 4, h2.2⟩]
              else none
            else none
          else
            match b64Val c4 with
            | some s4 =>
              match decodeB64 rest with
              | some bs =>
                if h3 : s1 * 4 + s2 / 16 < 256 ∧ s2 % 16 * 16 + s3 / 4 < 256 ∧
                    s3 % 4 * 64 + s4 < 256 then
                  some (⟨s1 * 4 + s2 / 16, h3.1⟩ :: ⟨s2 % 16 * 16 + s3 / 4, h3.2.1⟩ ::
                    ⟨s3 % 4 * 64 + s4, h3.2.2⟩ :: bs)
                else none
              | none => none
            | none => none
        | none => none
    | _, _ => none
  | _ => none

/-- Bytes of a string (character codes folded into bytes). -/
def strBytes (s : String) : List Byte :=
  s.data.map fun c => ⟨c.toNat % 256, Nat.mod_lt _ (by omega)⟩

/-- Modelled from the spec: JSON serialization of the `CallResponse`
envelope into bytes. -/
def serializeResponse (r : CallResponse) : List Byte :=
  strBytes ("\x7b\"success\":" ++ (if r.success then "true" else "false") ++
    ",\"errorMessage\":\"" ++ r.errorMessage ++ "\",\"data\":\"" ++
    r.data ++ "\"\x7d")

/-- Modelled from the spec: one geo source file as seen by `countGeoData` /
`readGeoFiles` (§4.4): its name, whether it is structurally valid (with the
offset of the first corruption when it is not), and its lists with their
entry counts. -/
structure GeoFileModel where
  name : String
  valid : Bool
  badOffset : Nat
  lists : List (String × Nat)
  deriving DecidableEq, Repr

/-- First structurally invalid file of a batch, if any. -/
def firstInvalid : List GeoFileModel → Option GeoFileModel
  | [] => none
  | f :: fs => if f.valid then firstInvalid fs else some f

/-- Modelled from the spec: `countEntries(files)` of §4.4 — fails with
`GeoParseError` naming the file and offset on structurally invalid input,
never partially counting; otherwise reports the counts. -/
def countGeoData (files : List GeoFileModel) : Except LXError String :=
  match firstInvalid files with
  | some f => .error (.GeoParseError f.name f.badOffset)
  | none =>
    .ok ("lists:" ++ Nat.repr (files.foldl (fun a f => a + f.lists.length) 0))

/-- Modelled from the spec: `readGeoFiles(files, selector)` of §4.4 — same
parse path as `countEntries`, materializing the selected lists. -/
def readGeoFiles (files : List GeoFileModel) : Except LXError String :=
  match firstInvalid files with
  | some f => .error (.GeoParseError f.name f.badOffset)
  | none =>
    .ok ("db:" ++ Nat.repr (files.foldl (fun a f => a + f.lists.length) 0))

/-- Modelled from the spec: `RunXrayFromJSON(shareLinks)` — start first
converts the share links via the Config Converter (§4.2: "If share-links
are supplied, start first converts them via §4.3 before handing off"); a
conversion failure is an invalid config, and the state check of `start`
still comes first (the call is serialized under the controller's lock). -/
def runXrayFromJSON (e : Engine) (links : List RawLink) (engineReady : Bool) :
    Engine × Except LXError Unit :=
  start e (toJson links).toBool engineReady

/-- Modelled from the spec: the fifteen operations of the call surface
(§6), each with the decoded request payload its model needs; engine-external
outcomes (engine readiness, probe reachability, teardown success, file
validity) enter as explicit oracles. -/
inductive Call where
  | runXrayCall (configValid engineReady : Bool)
  | runXrayFromJSONCall (links : List RawLink) (engineReady : Bool)
  | stopXrayCall (teardownOk : Bool)
  | xrayVersionCall
  | convertShareLinksToXrayJsonCall (links : List RawLink)
  | convertXrayJsonToShareLinksCall (cfg : List Outbound) (representable : Bool)
  | getFreePortsCall (count : Nat)
  | pingCall (withinTimeout : Bool) (latencyMs : Nat)
  | queryStatsCall
  | testXrayCall (configValid : Bool)
  | countGeoDataCall (files : List GeoFileModel)
  | readGeoFilesCall (files : List GeoFileModel)
  | buildMphCacheCall (db : List (String × String)) (src : List Byte)
  | initDnsCall (valid : Bool)
  | resetDnsCall
  deriving DecidableEq, Repr

/-- Modelled from the spec: dispatch of a decoded request to the addressed
component (§2's control flow), yielding the engine after the call and the
component's result. -/
def runOp (e : Engine) : Call → Engine × Except LXError String
  | .runXrayCall cv er =>
    ((start e cv er).1, (start e cv er).2.map fun _ => "started")
  | .runXrayFromJSONCall links er =>
    ((runXrayFromJSON e links er).1,
     (runXrayFromJSON e links er).2.map fun _ => "started")
  | .stopXrayCall t => ((stop e t).1, (stop e t).2.map fun _ => "stopped")
  | .xrayVersionCall => (e, .ok "1.0.0")
  | .convertShareLinksToXrayJsonCall links =>
    (e, (toJson links).map fun cfg => "outbounds:" ++ Nat.repr cfg.length)
  | .convertXrayJsonToShareLinksCall cfg rep =>
    (e, if rep then .ok ("links:" ++ Nat.repr (toShareLinks cfg).length)
        else .error .UnsupportedOutboundError)
  | .getFreePortsCall n => (e, .ok ("ports:" ++ Nat.repr n))
  | .pingCall within lat =>
    (e, if within then .ok ("latency:" ++ Nat.repr lat)
        else .error .TimeoutError)
  | .queryStatsCall =>
    (e, (queryStats e).map fun p => "up:" ++ toString p.1 ++ " down:" ++ toString p.2)
  | .testXrayCall cv => (e, if cv then .ok "valid" else .error .InvalidConfigError)
  | .countGeoDataCall files => (e, countGeoData files)
  | .readGeoFilesCall files => (e, readGeoFiles files)
  | .buildMphCacheCall db src =>
    (e, (buildMphCache db src).map fun c => "slots:" ++ Nat.repr c.slots.length)
  | .initDnsCall v => (e, if v then .ok "dns set" else .error .InvalidDnsConfigError)
  | .resetDnsCall => (e, .ok "dns reset")

/-- Modelled from the spec: the full call boundary of §6 — run the
operation, wrap its result in the `CallResponse` envelope and base64-encode
it; this is the only form in which any result or error crosses the
boundary. -/
def callSurface (e : Engine) (c : Call) : Engine × List Nat :=
  ((runOp e c).1, encodeB64 (serializeResponse (respond (runOp e c).2)))

deriving instance DecidableEq for Except

/-! ## Helper lemmas -/

theorem digitsVal_append (l1 l2 : List Nat) : ∀ a : Nat,
    digitsVal a (l1 ++ l2) =
      match digitsVal a l1 with
      | some b => digitsVal b l2
      | none => none := by
  induction l1 with
  | nil => intro a; rfl
  | cons c cs ih =>
    intro a
    by_cases h : 48 ≤ c ∧ c ≤ 57
    · simp only [List.cons_append, digitsVal, if_pos h]
      exact ih _
    · simp only [List.cons_append, digitsVal, if_neg h]

theorem digitsVal_natDigits (n : Nat) : ∀ a : Nat,
    digitsVal a (natDigits n) = some (a * 10 ^ (natDigits n).length + n) := by
  induction n using Nat.strong_induction_on with
  | _ n ih =>
    intro a
    by_cases h : n < 10
    · rw [natDigits, if_pos h]
      have hd : 48 ≤ 48 + n ∧ 48 + n ≤ 57 := by omega
      simp only [digitsVal, if_pos hd, List.length_singleton]
      congr 1
      omega
    · have hlt : n / 10 < n := Nat.div_lt_self (by omega) (by omega)
      have hrec : (natDigits (n / 10)).length + 1 = (natDigits n).length := by
        conv_rhs => rw [natDigits, if_neg h]
        simp [List.length_append]
      rw [natDigits, if_neg h]
      rw [digitsVal_append]
      rw [ih (n / 10) hlt a]
      have hd : 48 ≤ 48 + n % 10 ∧ 48 + n % 10 ≤ 57 := by
        have := Nat.mod_lt n (show 0 < 10 by omega)
        omega
      simp only [digitsVal, if_pos hd]
      congr 1
      have h48 : 48 + n % 10 - 48 = n % 10 := by omega
      rw [h48]
      simp only [List.length_append, List.length_singleton]
      rw [pow_succ]
      calc 10 * (a * 10 ^ (natDigits (n / 10)).length + n / 10) + n % 10
          = (a * 10 ^ (natDigits (n / 10)).length) * 10 + (10 * (n / 10) + n % 10) := by
            ring
        _ = a * (10 ^ (natDigits (n / 10)).length * 10) + n := by
            rw [mul_assoc, Nat.div_add_mod]

theorem natDigits_ne_nil (n : Nat) : natDigits n ≠ [] := by
  rw [natDigits]
  by_cases h : n < 10
  · rw [if_pos h]; simp
  · rw [if_neg h]; simp

theorem parsePort_natDigits (n : Nat) : parsePort (natDigits n) = some n := by
  have h1 := digitsVal_natDigits n 0
  have h2 := natDigits_ne_nil n
  cases hm : natDigits n with
  | nil => exact absurd hm h2
  | cons c cs =>
    rw [hm] at h1
    show digitsVal 0 (c :: cs) = some n
    rw [h1]
    simp

theorem hexVal_hexUpper (n : Nat) (hn : n < 16) : hexVal (hexUpper n) = some n := by
  unfold hexVal hexUpper
  by_cases h10 : n < 10
  · rw [if_pos h10, if_pos (show 48 ≤ 48 + n ∧ 48 + n ≤ 57 by omega)]
    congr 1
    omega
  · rw [if_neg h10, if_neg (show ¬(48 ≤ 55 + n ∧ 55 + n ≤ 57) by omega),
      if_pos (show 65 ≤ 55 + n ∧ 55 + n ≤ 70 by omega)]
    congr 1
    omega

theorem isUnreservedCode_lt (c : Nat) (h : isUnreservedCode c = true) : c < 256 := by
  simp only [isUnreservedCode, Bool.or_eq_true, Bool.and_eq_true,
    decide_eq_true_eq] at h
  omega

theorem isUnreservedCode_ne37 (c : Nat) (h : isUnreservedCode c = true) : c ≠ 37 := by
  simp only [isUnreservedCode, Bool.or_eq_true, Bool.and_eq_true,
    decide_eq_true_eq] at h
  omega

theorem percentDecode_percentEncode (bs : List Byte) :
    percentDecode (percentEncode bs) = some bs := by
  induction bs with
  | nil => rfl
  | cons b bs ih =>
    by_cases hu : isUnreservedCode b.val
    · simp only [percentEncode, if_pos hu]
      rw [percentDecode.eq_def]
      simp only [if_neg (isUnreservedCode_ne37 b.val hu),
        dif_pos (isUnreservedCode_lt b.val hu), if_pos hu, ih]
    · have h1 := hexVal_hexUpper (b.val / 16) (by omega)
      have h2 := hexVal_hexUpper (b.val % 16) (by omega)
      have hlt : 16 * (b.val / 16) + b.val % 16 < 256 := by omega
      simp only [percentEncode, if_neg hu]
      rw [percentDecode.eq_def]
      simp only [eq_self_iff_true, if_true, h1, h2, ih, dif_pos hlt]
      simp only [Option.some.injEq, List.cons.injEq]
      refine ⟨Fin.ext ?_, trivial⟩
      show 16 * (b.val / 16) + b.val % 16 = b.val
      omega

theorem parseScheme_schemeName (sch : Scheme) :
    parseScheme (schemeName sch) = some sch := by
  cases sch <;> decide

theorem parseLink_semEq (i : Nat) (l : RawLink) (o : Outbound)
    (h : parseLink i l = .ok o) : semEqLink (rawOfOutbound o) l := by
  unfold parseLink at h
  split at h
  next => exact absurd h (by simp)
  next sch hs =>
    split at h
    next => exact absurd h (by simp)
    next hh =>
      split at h
      next p cs hp hc =>
        simp only [Except.ok.injEq] at h
        subst h
        refine ⟨?_, rfl, ?_, ?_⟩
        · show parseScheme (schemeName sch) = parseScheme l.scheme
          rw [parseScheme_schemeName, hs]
        · show parsePort (natDigits p) = parsePort l.portText
          rw [parsePort_natDigits, hp]
        · show percentDecode (percentEncode cs) = percentDecode l.credsEnc
          rw [percentDecode_percentEncode, hc]
      next => exact absurd h (by simp)

theorem toJsonGo_roundtrip : ∀ (ls : List RawLink) (i : Nat) (cfg : List Outbound),
    toJsonGo i ls = .ok cfg → List.Forall₂ semEqLink (toShareLinks cfg) ls := by
  intro ls
  induction ls with
  | nil =>
    intro i cfg h
    unfold toJsonGo at h
    simp only [Except.ok.injEq] at h
    subst h
    exact List.Forall₂.nil
  | cons hd rest ih =>
    intro i cfg h
    unfold toJsonGo at h
    cases hp : parseLink i hd with
    | error err => rw [hp] at h; exact absurd h (by simp)
    | ok ob =>
      rw [hp] at h
      cases hr : toJsonGo (i + 1) rest with
      | error err => rw [hr] at h; exact absurd h (by simp)
      | ok obs =>
        rw [hr] at h
        simp only [Except.ok.injEq] at h
        subst h
        exact List.Forall₂.cons (parseLink_semEq i hd ob hp) (ih (i + 1) obs hr)

theorem toJsonGo_ok_get : ∀ (ls : List RawLink) (j : Nat) (cfg : List Outbound),
    toJsonGo j ls = .ok cfg → ∀ (i : Nat) (l : RawLink), ls[i]? = some l →
    ∃ ob : Outbound, parseLink (j + i) l = .ok ob ∧ cfg[i]? = some ob := by
  intro ls
  induction ls with
  | nil => intro j cfg h i l hget; simp at hget
  | cons hd rest ih =>
    intro j cfg h i l hget
    unfold toJsonGo at h
    cases hp : parseLink j hd with
    | error err => rw [hp] at h; exact absurd h (by simp)
    | ok ob =>
      rw [hp] at h
      cases hr : toJsonGo (j + 1) rest with
      | error err => rw [hr] at h; exact absurd h (by simp)
      | ok obs =>
        rw [hr] at h
        simp only [Except.ok.injEq] at h
        subst h
        cases i with
        | zero =>
          simp only [List.getElem?_cons_zero, Option.some.injEq] at hget
          subst hget
          exact ⟨ob, by simpa using hp, by simp⟩
        | succ n =>
          simp only [List.getElem?_cons_succ] at hget
          obtain ⟨ob2, hpl, hcfg⟩ := ih (j + 1) obs hr n l hget
          refine ⟨ob2, ?_, by simpa using hcfg⟩
          rw [show j + (n + 1) = j + 1 + n by omega]
          exact hpl

theorem toJsonGo_error_of_bad :
    ∀ (ls : List RawLink) (j i : Nat) (l : RawLink) (err : LXError),
    ls[i]? = some l → parseLink (j + i) l = .error err →
    ∃ e2 : LXError, toJsonGo j ls = .error e2 := by
  intro ls
  induction ls with
  | nil => intro j i l err hget hbad; simp at hget
  | cons hd rest ih =>
    intro j i l err hget hbad
    cases i with
    | zero =>
      simp only [List.getElem?_cons_zero, Option.some.injEq] at hget
      subst hget
      refine ⟨err, ?_⟩
      unfold toJsonGo
      rw [show parseLink j hd = .error err from by simpa using hbad]
    | succ n =>
      simp only [List.getElem?_cons_succ] at hget
      cases hp : parseLink j hd with
      | error e0 => exact ⟨e0, by unfold toJsonGo; rw [hp]⟩
      | ok ob =>
        have hbad2 : parseLink (j + 1 + n) l = .error err := by
          rw [show j + 1 + n = j + (n + 1) by omega]
          exact hbad
        obtain ⟨e2, hrest⟩ := ih (j + 1) n l err hget hbad2
        refine ⟨e2, ?_⟩
        unfold toJsonGo
        rw [hp, hrest]

theorem keyIndex_lt_of_mem : ∀ (ks : List String) (q : String),
    q ∈ ks → keyIndex ks q < ks.length := by
  intro ks
  induction ks with
  | nil => intro q hq; simp at hq
  | cons k ks ih =>
    intro q hq
    unfold keyIndex
    by_cases hk : k = q
    · rw [if_pos hk]; simp
    · rw [if_neg hk]
      have hq2 : q ∈ ks := by
        cases hq with
        | head => exact absurd rfl hk
        | tail _ h => exact h
      have := ih q hq2
      simp only [List.length_cons]
      omega

theorem keyIndex_eq_length_of_not_mem : ∀ (ks : List String) (q : String),
    q ∉ ks → keyIndex ks q = ks.length := by
  intro ks
  induction ks with
  | nil => intro q _; rfl
  | cons k ks ih =>
    intro q hq
    unfold keyIndex
    have hk : k ≠ q := fun h => hq (h ▸ List.mem_cons_self k ks)
    rw [if_neg hk, ih q (fun h => hq (List.mem_cons_of_mem k h))]
    simp

theorem keyIndex_get : ∀ (ks : List String), ks.Nodup → ∀ (i : Fin ks.length),
    keyIndex ks (ks.get i) = i.val := by
  intro ks
  induction ks with
  | nil => intro _ i; exact absurd i.isLt (by simp)
  | cons k ks ih =>
    intro hnd i
    obtain ⟨hk, hnd2⟩ := List.nodup_cons.mp hnd
    match i with
    | ⟨0, _⟩ => simp [keyIndex]
    | ⟨n + 1, hn⟩ =>
      have hget : (k :: ks).get ⟨n + 1, hn⟩ = ks.get ⟨n, by simpa using hn⟩ := rfl
      rw [hget]
      unfold keyIndex
      have hne : k ≠ ks.get ⟨n, by simpa using hn⟩ :=
        fun h => hk (h ▸ List.get_mem ks n (by simpa using hn))
      rw [if_neg hne, ih hnd2 ⟨n, by simpa using hn⟩]

theorem keyIndex_inj : ∀ (ks : List String), ks.Nodup →
    ∀ (k1 k2 : String), k1 ∈ ks → k2 ∈ ks →
    keyIndex ks k1 = keyIndex ks k2 → k1 = k2 := by
  intro ks
  induction ks with
  | nil => intro _ k1 k2 h1; simp at h1
  | cons k ks ih =>
    intro hnd k1 k2 h1 h2 heq
    obtain ⟨hk, hnd2⟩ := List.nodup_cons.mp hnd
    unfold keyIndex at heq
    by_cases e1 : k = k1
    · by_cases e2 : k = k2
      · rw [← e1, ← e2]
      · rw [if_pos e1, if_neg e2] at heq
        simp at heq
    · by_cases e2 : k = k2
      · rw [if_neg e1, if_pos e2] at heq
        simp at heq
      · rw [if_neg e1, if_neg e2] at heq
        have m1 : k1 ∈ ks := by
          cases h1 with
          | head => exact absurd rfl e1
          | tail _ h => exact h
        have m2 : k2 ∈ ks := by
          cases h2 with
          | head => exact absurd rfl e2
          | tail _ h => exact h
        exact ih hnd2 k1 k2 m1 m2 (by omega)

theorem slots_get_keyIndex : ∀ (db : List (String × String)) (name entry : String),
    (db.map Prod.fst).Nodup → (name, entry) ∈ db →
    (db.map (fun p => MphSlot.mk p.1 p.2))[keyIndex (db.map Prod.fst) name]? =
      some ⟨name, entry⟩ := by
  intro db
  induction db with
  | nil => intro name entry _ hmem; simp at hmem
  | cons hd rest ih =>
    intro name entry hnd hmem
    rw [List.map_cons] at hnd
    obtain ⟨hk, hnd2⟩ := List.nodup_cons.mp hnd
    cases hmem with
    | head =>
      show (MphSlot.mk name entry :: _)[keyIndex (name :: _) name]? = _
      simp [keyIndex]
    | tail _ hmem2 =>
      have hname : name ∈ rest.map Prod.fst :=
        List.mem_map.mpr ⟨(name, entry), hmem2, rfl⟩
      have hne : hd.1 ≠ name := fun h => hk (h ▸ hname)
      show (MphSlot.mk hd.1 hd.2 :: _)[keyIndex (hd.1 :: _) name]? = _
      unfold keyIndex
      rw [if_neg hne]
      simpa using ih name entry hnd2 hmem2

theorem contentFingerprint_inj : ∀ (a b : List Byte),
    contentFingerprint a = contentFingerprint b → a = b := by
  intro a
  induction a with
  | nil =>
    intro b h
    cases b with
    | nil => rfl
    | cons x xs => unfold contentFingerprint at h; omega
  | cons x xs ih =>
    intro b h
    cases b with
    | nil => unfold contentFingerprint at h; omega
    | cons y ys =>
      unfold contentFingerprint at h
      have hx := x.isLt
      have hy := y.isLt
      have hv : x.val = y.val ∧ contentFingerprint xs = contentFingerprint ys := by
        constructor <;> omega
      rw [Fin.ext hv.1, ih ys hv.2]

theorem b64Val_b64Char : ∀ s : Nat, s < 64 → b64Val (b64Char s) = some s := by
  decide

theorem b64Char_ne_61 (s : Nat) : b64Char s ≠ 61 := by
  unfold b64Char
  split_ifs <;> omega

theorem decodeB64_encodeB64 : ∀ bs : List Byte, decodeB64 (encodeB64 bs) = some bs
  | [] => rfl
  | [b] => by
    have h1 := b64Val_b64Char (b.val / 4) (by omega)
    have h2 := b64Val_b64Char (b.val % 4 * 16) (by omega)
    simp only [encodeB64]
    rw [decodeB64.eq_def]
    simp only [h1, h2, eq_self_iff_true, if_true, and_self]
    split
    next h =>
      simp only [Option.some.injEq, List.cons.injEq]
      refine ⟨Fin.ext ?_, trivial⟩
      show b.val / 4 * 4 + b.val % 4 * 16 / 16 = b.val
      omega
    next h => exact absurd (show b.val / 4 * 4 + b.val % 4 * 16 / 16 < 256 by omega) h
  | [b1, b2] => by
    have h1 := b64Val_b64Char (b1.val / 4) (by omega)
    have h2 := b64Val_b64Char (b1.val % 4 * 16 + b2.val / 16) (by omega)
    have h3 := b64Val_b64Char (b2.val % 16 * 4) (by omega)
    simp only [encodeB64]
    rw [decodeB64.eq_def]
    simp only [h1, h2, h3, eq_self_iff_true, if_true, and_self,
      if_neg (b64Char_ne_61 (b2.val % 16 * 4))]
    split
    next h =>
      simp only [Option.some.injEq, List.cons.injEq]
      refine ⟨Fin.ext ?_, Fin.ext ?_, trivial⟩
      · show b1.val / 4 * 4 + (b1.val % 4 * 16 + b2.val / 16) / 16 = b1.val
        omega
      · show (b1.val % 4 * 16 + b2.val / 16) % 16 * 16 + b2.val % 16 * 4 / 4 = b2.val
        omega
    next h =>
      exact absurd (show b1.val / 4 * 4 + (b1.val % 4 * 16 + b2.val / 16) / 16 < 256 ∧
        (b1.val % 4 * 16 + b2.val / 16) % 16 * 16 + b2.val % 16 * 4 / 4 < 256 by omega) h
  | b1 :: b2 :: b3 :: rest => by
    have ih := decodeB64_encodeB64 rest
    have h1 := b64Val_b64Char (b1.val / 4) (by omega)
    have h2 := b64Val_b64Char (b1.val % 4 * 16 + b2.val / 16) (by omega)
    have h3 := b64Val_b64Char (b2.val % 16 * 4 + b3.val / 64) (by omega)
    have h4 := b64Val_b64Char (b3.val % 64) (by omega)
    show decodeB64 (b64Char (b1.val / 4) :: b64Char (b1.val % 4 * 16 + b2.val / 16) ::
      b64Char (b2.val % 16 * 4 + b3.val / 64) :: b64Char (b3.val % 64) ::
      encodeB64 rest) = _
    rw [decodeB64.eq_def]
    simp only [h1, h2, h3, h4, ih,
      if_neg (b64Char_ne_61 (b2.val % 16 * 4 + b3.val / 64)),
      if_neg (b64Char_ne_61 (b3.val % 64))]
    split
    next h =>
      simp only [Option.some.injEq, List.cons.injEq]
      refine ⟨Fin.ext ?_, Fin.ext ?_, Fin.ext ?_, trivial⟩
      · show b1.val / 4 * 4 + (b1.val % 4 * 16 + b2.val / 16) / 16 = b1.val
        omega
      · show (b1.val % 4 * 16 + b2.val / 16) % 16 * 16 +
          (b2.val % 16 * 4 + b3.val / 64) / 4 = b2.val
        omega
      · show (b2.val % 16 * 4 + b3.val / 64) % 4 * 64 + b3.val % 64 = b3.val
        omega
    next h =>
      refine absurd ?_ h
      refine ⟨by omega, by omega, by omega⟩

theorem string_eq_empty_of_length (a : String) (h : a.length = 0) : a = "" := by
  cases a with
  | mk data =>
    have hd : data = [] := List.length_eq_zero.mp (by simpa [String.length] using h)
    rw [hd]

theorem append_ne_empty_left (a b : String) (ha : a ≠ "") : a ++ b ≠ "" := by
  intro h
  have hl := congrArg String.length h
  rw [String.length_append] at hl
  have h0 : a.length + b.length = 0 := by simpa using hl
  have ha0 : a.length = 0 := by omega
  exact ha (string_eq_empty_of_length a ha0)

theorem errMsg_ne_empty (err : LXError) : errMsg err ≠ "" := by
  cases err with
  | UnsupportedSchemeError s => exact append_ne_empty_left _ _ (by decide)
  | MalformedLinkError i => exact append_ne_empty_left _ _ (by decide)
  | GeoParseError f off =>
    exact append_ne_empty_left _ _
      (append_ne_empty_left _ _ (append_ne_empty_left _ _ (by decide)))
  | DecodeError => decide
  | AlreadyRunningError => decide
  | InvalidConfigError => decide
  | UnsupportedOutboundError => decide
  | MphBuildError => decide
  | EngineNotRunningError => decide
  | InvalidDnsConfigError => decide
  | TimeoutError => decide
  | EngineRuntimeFault => decide

/-! ## Claim theorems -/

/-- C1: every call to start (RunXray / RunXrayFromJSON) while the engine
state is Starting or Running fails with `AlreadyRunningError` and leaves the
engine unchanged (rejected, not queued) — in particular the state remains
Running when it was Running; and two start calls in a row from Stopped with
no intervening stop leave the state Running after the first call and yield
`AlreadyRunningError` on the second, the state remaining Running. -/
theorem start_rejected_when_active (e : Engine) (cv er : Bool)
    (links : List RawLink) :
    ((e.state = .Starting ∨ e.state = .Running) →
      start e cv er = (e, .error .AlreadyRunningError) ∧
      runXrayFromJSON e links er = (e, .error .AlreadyRunningError)) ∧
    (e.state = .Stopped →
      (start e true true).1.state = .Running ∧
      start (start e true true).1 cv er =
        ((start e true true).1, .error .AlreadyRunningError)) := by
  constructor
  · intro h
    constructor
    · cases h with
      | inl h1 => unfold start; rw [h1]
      | inr h1 => unfold start; rw [h1]
    · cases h with
      | inl h1 => unfold runXrayFromJSON start; rw [h1]
      | inr h1 => unfold runXrayFromJSON start; rw [h1]
  · intro h
    have h1 : start e true true = ({ e with state := .Running }, .ok ()) := by
      unfold start
      rw [h]
      rfl
    rw [h1]
    exact ⟨rfl, rfl⟩

/-- C1 witness: with the engine Running, start and start-from-JSON are
rejected with `AlreadyRunningError`; and from Stopped, a successful start
followed by a second start leaves the state Running and rejects the second
call. -/
theorem start_rejected_when_active_witness :
    (start ⟨.Running, 0, 0⟩ false false =
        (⟨.Running, 0, 0⟩, .error .AlreadyRunningError) ∧
      runXrayFromJSON ⟨.Running, 0, 0⟩ [] false =
        (⟨.Running, 0, 0⟩, .error .AlreadyRunningError)) ∧
    ((start ⟨.Stopped, 0, 0⟩ true true).1.state = .Running ∧
      start (start ⟨.Stopped, 0, 0⟩ true true).1 false false =
        ((start ⟨.Stopped, 0, 0⟩ true true).1, .error .AlreadyRunningError)) :=
  ⟨(start_rejected_when_active ⟨.Running, 0, 0⟩ false false []).1 (Or.inr rfl),
   (start_rejected_when_active ⟨.Stopped, 0, 0⟩ false false []).2 rfl⟩

/-- C4: stop (StopXray) always succeeds from every state; on an already
Stopped engine it is a no-op, from any other state (Running, Starting,
Failed, Stopping) the post-state is Stopped even when teardown partially
fails, and stop after stop equals a single stop. -/
theorem stop_idempotent_forced (e : Engine) (t t2 : Bool) :
    (stop e t).2 = .ok () ∧
    (stop e t).1.state = .Stopped ∧
    (e.state = .Stopped → stop e t = (e, .ok ())) ∧
    stop (stop e t).1 t2 = ((stop e t).1, .ok ()) := by
  cases t <;> cases hs : e.state <;> simp [stop, hs]

/-- C4 witness: stopping a Stopped engine (even with failing teardown)
succeeds, is a no-op, and a second stop changes nothing. -/
theorem stop_idempotent_forced_witness :
    (stop ⟨.Stopped, 0, 0⟩ false).2 = .ok () ∧
    (stop ⟨.Stopped, 0, 0⟩ false).1.state = .Stopped ∧
    stop ⟨.Stopped, 0, 0⟩ false = (⟨.Stopped, 0, 0⟩, .ok ()) ∧
    stop (stop ⟨.Stopped, 0, 0⟩ false).1 true =
      ((stop ⟨.Stopped, 0, 0⟩ false).1, .ok ()) := by
  have h := stop_idempotent_forced ⟨.Stopped, 0, 0⟩ false true
  exact ⟨h.1, h.2.1, h.2.2.1 rfl, h.2.2.2⟩

/-- C8: queryStats (QueryStats) fails with `EngineNotRunningError` whenever
the engine state is not Running (in particular when Stopped or Failed), and
when Running it succeeds with a point-in-time snapshot whose byte counts are
non-negative. -/
theorem queryStats_spec (e : Engine) :
    (e.state ≠ .Running → queryStats e = .error .EngineNotRunningError) ∧
    (e.state = .Running →
      queryStats e = .ok ((e.bytesUp : Int), (e.bytesDown : Int)) ∧
      0 ≤ ((e.bytesUp : Int)) ∧ 0 ≤ ((e.bytesDown : Int))) := by
  cases hs : e.state <;> simp [queryStats, hs]

/-- C8 witness: on a Stopped engine queryStats fails with
`EngineNotRunningError`; on a Running engine with counters 5/7 it returns
the snapshot (5, 7), both components non-negative. -/
theorem queryStats_spec_witness :
    queryStats ⟨.Stopped, 0, 0⟩ = .error .EngineNotRunningError ∧
    (queryStats ⟨.Running, 5, 7⟩ = .ok (((5 : Nat) : Int), ((7 : Nat) : Int)) ∧
      0 ≤ (((5 : Nat) : Int)) ∧ 0 ≤ (((7 : Nat) : Int))) :=
  ⟨(queryStats_spec ⟨.Stopped, 0, 0⟩).1 (by decide),
   (queryStats_spec ⟨.Running, 5, 7⟩).2 rfl⟩

/-- C2: for every ShareLinkSet accepted by toJson
(ConvertShareLinksToXrayJson), converting the result back with toShareLinks
(ConvertXrayJsonToShareLinks) yields a set semantically equivalent link by
link to the original: same recognised scheme, host, port value and decoded
credentials, with cosmetic field spelling and remark text free to differ. -/
theorem shareLinks_roundtrip (ls : List RawLink) (cfg : List Outbound)
    (h : toJson ls = .ok cfg) :
    List.Forall₂ semEqLink (toShareLinks cfg) ls :=
  toJsonGo_roundtrip ls 0 cfg h

/-- C2 witness: a concrete vmess link round-trips to a semantically
equivalent link. -/
theorem shareLinks_roundtrip_witness :
    List.Forall₂ semEqLink
      (toShareLinks [⟨.vmess, "1.2.3.4", 443, [(97 : Byte)], "r"⟩])
      [⟨"vmess", "1.2.3.4", [52, 52, 51], [97], "r"⟩] :=
  shareLinks_roundtrip [⟨"vmess", "1.2.3.4", [52, 52, 51], [97], "r"⟩]
    [⟨.vmess, "1.2.3.4", 443, [(97 : Byte)], "r"⟩] (by decide)

/-- C7: toJson (ConvertShareLinksToXrayJson) fails atomically over the whole
set — a link with an unknown scheme fails with `UnsupportedSchemeError`
naming the scheme; a known-scheme link with a missing host, non-numeric port
or invalid credential encoding fails with `MalformedLinkError` carrying that
link's position; a set whose conversion succeeds had every link valid (each
contributing its own outbound at the same position); and a set containing
any failing link never yields a config (no partial TunnelConfig). -/
theorem toJson_atomic_errors :
    (∀ (i : Nat) (l : RawLink), parseScheme l.scheme = none →
      parseLink i l = .error (.UnsupportedSchemeError l.scheme)) ∧
    (∀ (i : Nat) (l : RawLink) (sch : Scheme), parseScheme l.scheme = some sch →
      (l.host = "" ∨ parsePort l.portText = none ∨ percentDecode l.credsEnc = none) →
      parseLink i l = .error (.MalformedLinkError i)) ∧
    (∀ (ls : List RawLink) (cfg : List Outbound), toJson ls = .ok cfg →
      ∀ (i : Nat) (l : RawLink), ls[i]? = some l →
        ∃ ob : Outbound, parseLink i l = .ok ob ∧ cfg[i]? = some ob) ∧
    (∀ (ls : List RawLink) (i : Nat) (l : RawLink) (err : LXError),
      ls[i]? = some l → parseLink i l = .error err →
      ∃ e2 : LXError, toJson ls = .error e2) := by
  refine ⟨?_, ?_, ?_, ?_⟩
  · intro i l hs
    unfold parseLink
    rw [hs]
  · intro i l sch hs hbad
    unfold parseLink
    split
    next heq => rw [hs] at heq; exact absurd heq (by simp)
    next sch2 heq =>
      by_cases hh : l.host = ""
      · rw [if_pos hh]
      · rw [if_neg hh]
        rcases hbad with hbad | hbad | hbad
        · exact absurd hbad hh
        · rw [hbad]
        · rw [hbad]
          cases hp : parsePort l.portText <;> rfl
  · intro ls cfg h i l hget
    have := toJsonGo_ok_get ls 0 cfg h i l hget
    simpa using this
  · intro ls i l err hget hbad
    exact toJsonGo_error_of_bad ls 0 i l err hget (by simpa using hbad)

/-- C7 witness: an unknown scheme is reported by name; a missing host is
reported with the link's position; and a set holding one bad link fails as a
whole. -/
theorem toJson_atomic_errors_witness :
    parseLink 0 ⟨"foo", "h", [49], [97], ""⟩ =
      .error (.UnsupportedSchemeError "foo") ∧
    parseLink 1 ⟨"vmess", "", [49], [97], ""⟩ =
      .error (.MalformedLinkError 1) ∧
    (∃ e2 : LXError,
      toJson [⟨"vmess", "h", [49], [97], ""⟩, ⟨"vmess", "", [49], [97], ""⟩] =
        .error e2) :=
  ⟨toJson_atomic_errors.1 0 ⟨"foo", "h", [49], [97], ""⟩ (by decide),
   toJson_atomic_errors.2.1 1 ⟨"vmess", "", [49], [97], ""⟩ .vmess (by decide)
     (Or.inl rfl),
   toJson_atomic_errors.2.2.2
     [⟨"vmess", "h", [49], [97], ""⟩, ⟨"vmess", "", [49], [97], ""⟩] 1
     ⟨"vmess", "", [49], [97], ""⟩ (.MalformedLinkError 1) (by decide) (by decide)⟩

/-- C3: over any cache built by buildMphCache, lookup of every key that was
in the source key set returns that key's entry, and lookup of any key not in
the set returns "not found" (`none`) — never an arbitrary or wrong entry —
because every slot's stored key is checked instead of trusting the hash
alone. -/
theorem mph_lookup_correct (db : List (String × String)) (src : List Byte)
    (cache : MphCache) (hb : buildMphCache db src = .ok cache) :
    (∀ name entry : String, (name, entry) ∈ db →
      mphLookup cache name = some entry) ∧
    (∀ k : String, k ∉ db.map Prod.fst → mphLookup cache k = none) := by
  unfold buildMphCache at hb
  split at hb
  next hnd =>
    simp only [Except.ok.injEq] at hb
    subst hb
    have hkeys : ((db.map fun p => MphSlot.mk p.1 p.2).map MphSlot.key) =
        db.map Prod.fst := by
      rw [List.map_map]
      rfl
    constructor
    · intro name entry hmem
      have hmemk : name ∈ db.map Prod.fst :=
        List.mem_map.mpr ⟨(name, entry), hmem, rfl⟩
      have hlt := keyIndex_lt_of_mem _ _ hmemk
      unfold mphLookup mphHash
      rw [hkeys, Nat.mod_eq_of_lt hlt,
        slots_get_keyIndex db name entry hnd hmem]
      simp
    · intro k hk
      cases db with
      | nil => rfl
      | cons hd rest =>
        unfold mphLookup mphHash
        rw [hkeys, keyIndex_eq_length_of_not_mem _ _ hk, Nat.mod_self]
        have hne : hd.1 ≠ k := fun h =>
          hk (h ▸ List.mem_map.mpr ⟨hd, List.mem_cons_self hd rest, rfl⟩)
        simp [hne]
  next => exact absurd hb (by simp)

/-- C3 witness: in a cache over US and CN, lookup of US returns its entry
and lookup of the never-inserted key FR returns none. -/
theorem mph_lookup_correct_witness :
    mphLookup ⟨[⟨"US", "a"⟩, ⟨"CN", "b"⟩], 2⟩ "US" = some "a" ∧
    mphLookup ⟨[⟨"US", "a"⟩, ⟨"CN", "b"⟩], 2⟩ "FR" = none :=
  ⟨(mph_lookup_correct [("US", "a"), ("CN", "b")] [(1 : Byte)]
      ⟨[⟨"US", "a"⟩, ⟨"CN", "b"⟩], 2⟩ (by decide)).1 "US" "a" (by decide),
   (mph_lookup_correct [("US", "a"), ("CN", "b")] [(1 : Byte)]
      ⟨[⟨"US", "a"⟩, ⟨"CN", "b"⟩], 2⟩ (by decide)).2 "FR" (by decide)⟩

/-- C6: for every database with duplicate-free keys, buildMphCache succeeds
and produces a table with exactly one slot per key (slot count equals key
count), the hash is collision-free on the key set, and every slot is hit by
some key — zero empty slots, the defining property of a minimal perfect
hash. -/
theorem mph_minimal_perfect (db : List (String × String)) (src : List Byte)
    (hnd : (db.map Prod.fst).Nodup) :
    ∃ cache : MphCache,
      buildMphCache db src = .ok cache ∧
      cache.slots.length = db.length ∧
      (∀ k1 k2 : String, k1 ∈ cache.slots.map MphSlot.key →
        k2 ∈ cache.slots.map MphSlot.key →
        mphHash (cache.slots.map MphSlot.key) k1 =
          mphHash (cache.slots.map MphSlot.key) k2 → k1 = k2) ∧
      (∀ i : Nat, i < cache.slots.length →
        ∃ k : String, k ∈ cache.slots.map MphSlot.key ∧
          mphHash (cache.slots.map MphSlot.key) k = i) := by
  have hkeys : ((db.map fun p => MphSlot.mk p.1 p.2).map MphSlot.key) =
      db.map Prod.fst := by
    rw [List.map_map]
    rfl
  refine ⟨⟨db.map (fun p => MphSlot.mk p.1 p.2), contentFingerprint src⟩,
    ?_, by simp, ?_, ?_⟩
  · unfold buildMphCache
    rw [if_pos hnd]
  · intro k1 k2 h1 h2 heq
    rw [hkeys] at h1 h2 heq
    unfold mphHash at heq
    rw [Nat.mod_eq_of_lt (keyIndex_lt_of_mem _ _ h1),
      Nat.mod_eq_of_lt (keyIndex_lt_of_mem _ _ h2)] at heq
    exact keyIndex_inj _ hnd k1 k2 h1 h2 heq
  · intro i hi
    have hi2 : i < (db.map Prod.fst).length := by simpa using hi
    refine ⟨(db.map Prod.fst).get ⟨i, hi2⟩, ?_, ?_⟩
    · rw [hkeys]
      exact List.get_mem _ _ _
    · rw [hkeys]
      unfold mphHash
      rw [keyIndex_get _ hnd ⟨i, hi2⟩]
      exact Nat.mod_eq_of_lt hi2

/-- C6 witness: over the two distinct keys US and CN the build succeeds with
a two-slot, collision-free, fully occupied table. -/
theorem mph_minimal_perfect_witness :
    ∃ cache : MphCache,
      buildMphCache [("US", "a"), ("CN", "b")] [] = .ok cache ∧
      cache.slots.length = [("US", "a"), ("CN", "b")].length ∧
      (∀ k1 k2 : String, k1 ∈ cache.slots.map MphSlot.key →
        k2 ∈ cache.slots.map MphSlot.key →
        mphHash (cache.slots.map MphSlot.key) k1 =
          mphHash (cache.slots.map MphSlot.key) k2 → k1 = k2) ∧
      (∀ i : Nat, i < cache.slots.length →
        ∃ k : String, k ∈ cache.slots.map MphSlot.key ∧
          mphHash (cache.slots.map MphSlot.key) k = i) :=
  mph_minimal_perfect [("US", "a"), ("CN", "b")] [] (by decide)

/-- C9: every cache built by buildMphCache stores the content fingerprint of
the source bytes it was built from, and caches built from different source
bytes carry different fingerprints, so a consumer comparing fingerprints
detects the change. -/
theorem fingerprint_detects_change (db db2 : List (String × String))
    (src src2 : List Byte) (c c2 : MphCache)
    (h : buildMphCache db src = .ok c) (h2 : buildMphCache db2 src2 = .ok c2) :
    c.fingerprint = contentFingerprint src ∧
    (src ≠ src2 → c.fingerprint ≠ c2.fingerprint) := by
  unfold buildMphCache at h h2
  split at h
  next =>
    simp only [Except.ok.injEq] at h
    subst h
    split at h2
    next =>
      simp only [Except.ok.injEq] at h2
      subst h2
      refine ⟨rfl, ?_⟩
      intro hne hfp
      exact hne (contentFingerprint_inj _ _ hfp)
    next => exact absurd h2 (by simp)
  next => exact absurd h (by simp)

/-- C9 witness: rebuilding over modified source bytes (byte 1 changed to
byte 2) changes the fingerprint from 2 to 3, and each cache stores the
fingerprint of its own source. -/
theorem fingerprint_detects_change_witness :
    (MphCache.mk [⟨"US", "a"⟩] 2).fingerprint =
      contentFingerprint [(1 : Byte)] ∧
    (MphCache.mk [⟨"US", "a"⟩] 2).fingerprint ≠
      (MphCache.mk [⟨"US", "a"⟩] 3).fingerprint := by
  have h := fingerprint_detects_change [("US", "a")] [("US", "a")]
    [(1 : Byte)] [(2 : Byte)] ⟨[⟨"US", "a"⟩], 2⟩ ⟨[⟨"US", "a"⟩], 3⟩
    (by decide) (by decide)
  exact ⟨h.1, h.2 (by decide)⟩

/-- C5: every public operation of the call surface returns exactly one
base64-encoded CallResponse — the returned bytes decode to the serialized
envelope of a single response — and in every returned response
`success = false` holds exactly when `errorMessage` is non-empty; no error
crosses the call boundary in any other form. -/
theorem call_envelope_invariant (e : Engine) (c : Call) :
    ∃ resp : CallResponse,
      decodeB64 (callSurface e c).2 = some (serializeResponse resp) ∧
      ((resp.success = false) ↔ resp.errorMessage ≠ "") := by
  refine ⟨respond (runOp e c).2, ?_, ?_⟩
  · show decodeB64 (encodeB64 (serializeResponse (respond (runOp e c).2))) = _
    exact decodeB64_encodeB64 _
  · cases hr : (runOp e c).2 with
    | ok d => simp [respond]
    | error err => simp [respond, errMsg_ne_empty err]

/-- C10: on the exported call surface of the bridging header,
CGoGetFreePorts is the only declaration whose argument is a raw GoInt
count; CGoStopXray, CGoXrayVersion and CGoResetDns are exactly the
declarations taking no argument; and every other declaration takes a single
base64-text argument. -/
theorem header_surface_arg_kinds :
    (∀ d ∈ headerDecls, d.arg = .goIntCount ↔ d.name = "CGoGetFreePorts") ∧
    (∀ d ∈ headerDecls, d.arg = .noArg ↔
      (d.name = "CGoStopXray" ∨ d.name = "CGoXrayVersion" ∨
        d.name = "CGoResetDns")) ∧
    (∀ d ∈ headerDecls, d.name ≠ "CGoGetFreePorts" →
      d.name ≠ "CGoStopXray" → d.name ≠ "CGoXrayVersion" →
      d.name ≠ "CGoResetDns" → d.arg = .base64Text) := by
  decide

/-- C10 witness: the GetFreePorts declaration of the header is the GoInt
one. -/
theorem header_surface_arg_kinds_witness :
    (CDecl.mk "CGoGetFreePorts" .goIntCount).arg = .goIntCount ↔
      (CDecl.mk "CGoGetFreePorts" .goIntCount).name = "CGoGetFreePorts" :=
  header_surface_arg_kinds.1 ⟨"CGoGetFreePorts", .goIntCount⟩ (by decide)
